import Mathlib

/-!
Verification of `tools/build_flat_atlas.py`: the shelf packer
(`pack_sprites`), the frame extractor (`extract_sprite`), the
effective-width computation and atlas merging in `main`, and the HTML
patcher (`update_html`), shallowly embedded in Lean.
-/

namespace FlatAtlas

/-! ### Shelf packer (`pack_sprites`) -/

/-- A rectangle to pack: the sprite's width and height, with its key
carried through as an opaque payload (Python carries the whole dict). -/
structure Item where
  key : Nat
  w : Nat
  h : Nat
deriving DecidableEq, Repr

/-- A packed rectangle: the item's fields plus the assigned top-left
position in the output sheet (`{**it, "x": ..., "y": ...}`). -/
structure Placed where
  key : Nat
  w : Nat
  h : Nat
  x : Nat
  y : Nat
deriving DecidableEq, Repr

/-- The packer's loop state: cursor `(x, y)`, current shelf height and
the placements recorded so far. -/
structure PackState where
  x : Nat
  y : Nat
  shelfH : Nat
  placed : List Placed
deriving Repr

/-- Comparison used by the packer's sort: `a` may come before `b`
exactly when `b.h ≤ a.h` (height descending). -/
def hDescLE (a b : Item) : Bool := b.h ≤ a.h

/-- `sorted(items, key=lambda it: it["h"], reverse=True)`: Python's sort
is stable; with `reverse=True` it sorts by height descending, equal
heights keeping insertion order.  `List.mergeSort` is a stable sort, so
this comparison gives exactly that order. -/
def sortByHeightDesc (items : List Item) : List Item :=
  items.mergeSort hDescLE

/-- One iteration of the `for it in items` loop of `pack_sprites`. -/
def packStep (maxWidth padding : Nat) (s : PackState) (it : Item) : PackState :=
  let w := it.w + padding * 2
  let h := it.h + padding * 2
  let x := if s.x + w > maxWidth ∧ s.x > padding then padding else s.x
  let y := if s.x + w > maxWidth ∧ s.x > padding then s.y + s.shelfH else s.y
  let shelfH := if s.x + w > maxWidth ∧ s.x > padding then 0 else s.shelfH
  { x := x + w
    y := y
    shelfH := max shelfH h
    placed := s.placed ++ [{ key := it.key, w := it.w, h := it.h,
                             x := x + padding, y := y + padding }] }

/-- `pack_sprites(items, max_width, padding)` from the source: sort by
height descending, fold the placement loop from cursor
`(padding, padding)`, return the placements, `max_width` unchanged and
the final `y + shelf_h`. -/
def pack_sprites (items : List Item) (maxWidth padding : Nat) :
    List Placed × Nat × Nat :=
  let s := (sortByHeightDesc items).foldl (packStep maxWidth padding)
    { x := padding, y := padding, shelfH := 0, placed := [] }
  (s.placed, maxWidth, s.y + s.shelfH)

/-- The shelf-packing scan exactly as the spec words it (§4.2 steps 2–4),
written as a recursion over the sorted list: cursor `(x, y)` and
`shelf_height`; for each rectangle `w' = w + 2*padding`,
`h' = h + 2*padding`; a new shelf starts exactly when `x + w' > max_width`
and `x > padding`; the placement is recorded at `(x + padding, y + padding)`;
then `x += w'` and `shelf_height = max(shelf_height, h')`; the final
height is `y + shelf_height` after the last rectangle. -/
def packSpecGo (maxWidth padding : Nat) :
    List Item → Nat → Nat → Nat → List Placed × Nat
  | [], _, y, shelfH => ([], y + shelfH)
  | it :: rest, x, y, shelfH =>
    let w' := it.w + 2 * padding
    let h' := it.h + 2 * padding
    if x + w' > maxWidth ∧ x > padding then
      let res := packSpecGo maxWidth padding rest (padding + w') (y + shelfH) h'
      ({ key := it.key, w := it.w, h := it.h,
         x := padding + padding, y := (y + shelfH) + padding } :: res.1, res.2)
    else
      let res := packSpecGo maxWidth padding rest (x + w') y (max shelfH h')
      ({ key := it.key, w := it.w, h := it.h,
         x := x + padding, y := y + padding } :: res.1, res.2)

/-- The packer as the spec describes it end to end: sort by height
descending (stable), scan from cursor `(padding, padding)`, return the
placements, the unchanged `max_width` and the computed height. -/
def packSpec (items : List Item) (maxWidth padding : Nat) :
    List Placed × Nat × Nat :=
  let r := packSpecGo maxWidth padding (sortByHeightDesc items) padding padding 0
  (r.1, maxWidth, r.2)

/-- The padded bounding box of a placement `p` is the placed rectangle
grown by `padding` on every side:
`[p.x - padding, p.x + p.w + padding) × [p.y - padding, p.y + p.h + padding)`
(the packer records `p.x = cursor_x + padding`, so `p.x ≥ padding` and
the subtraction is exact).  Two padded boxes do not overlap when they
are separated on an axis; `p left of q`, i.e.
`p.x + p.w + padding ≤ q.x - padding`, is written addition-only as
`p.x + p.w + 2*padding ≤ q.x`. -/
def padDisjoint (padding : Nat) (p q : Placed) : Prop :=
  p.x + p.w + 2 * padding ≤ q.x ∨ q.x + q.w + 2 * padding ≤ p.x
    ∨ p.y + p.h + 2 * padding ≤ q.y ∨ q.y + q.h + 2 * padding ≤ p.y

instance (padding : Nat) (p q : Placed) : Decidable (padDisjoint padding p q) := by
  unfold padDisjoint
  infer_instance

/-- Invariant maintained by the packer's loop: the cursor stays at or
right of / below the margin, every recorded placement sits at or past
the margin, fits above the running `y + shelf_height` water line, is
either on a finished shelf (fully above the current `y`) or on the
current shelf (top row at `y`, padded right edge at or left of the
cursor), stays inside the sheet width, and all padded boxes recorded so
far are pairwise disjoint. -/
def PackInv (mw pad : Nat) (s : PackState) : Prop :=
  pad ≤ s.x ∧ pad ≤ s.y
    ∧ (∀ p ∈ s.placed, pad ≤ p.x ∧ pad ≤ p.y)
    ∧ (∀ p ∈ s.placed, p.y + p.h + pad ≤ s.y + s.shelfH)
    ∧ (∀ p ∈ s.placed,
        p.y + p.h + pad ≤ s.y ∨ (p.y = s.y + pad ∧ p.x + p.w + pad ≤ s.x))
    ∧ (∀ p ∈ s.placed, p.x + p.w ≤ mw)
    ∧ s.placed.Pairwise (padDisjoint pad)

/-! ### Frame extractor (`extract_sprite`) -/

/-- An RGBA pixel value. -/
structure RGBA where
  r : Nat
  g : Nat
  b : Nat
  a : Nat
deriving DecidableEq, Repr

/-- The fully transparent pixel `(0, 0, 0, 0)`. -/
def transparent : RGBA := ⟨0, 0, 0, 0⟩

/-- An in-memory image: width, height, and a total pixel function (only
indices `i < w`, `j < h` are meaningful). -/
structure Img where
  w : Nat
  h : Nat
  px : Nat → Nat → RGBA

/-- `sheet.crop((l, t, r, b))`: size `(r - l, b - t)`; pixel `(i, j)`
reads the source at `(l + i, t + j)`. -/
def crop (img : Img) (l t r b : Nat) : Img :=
  { w := r - l, h := b - t, px := fun i j => img.px (l + i) (t + j) }

/-- `crop.transpose(Image.ROTATE_90)`: rotate 90° counter-clockwise.
The sizes swap and `dst (i, j) = src (w - 1 - j, i)` (the source's right
edge becomes the destination's top row). -/
def rotate90 (img : Img) : Img :=
  { w := img.h, h := img.w, px := fun i j => img.px (img.w - 1 - j) i }

/-- `Image.new("RGBA", (w, h), (0, 0, 0, 0))`: a transparent canvas. -/
def newRGBA (w h : Nat) : Img :=
  { w := w, h := h, px := fun _ _ => transparent }

/-- `canvas.paste(img, (ox, oy))`: overwrite the rectangle
`[ox, ox + img.w) × [oy, oy + img.h)` with `img`, keep `canvas`
elsewhere (PIL clips at the canvas edge; the model's pixels are only
read for `i < canvas.w`, `j < canvas.h`). -/
def paste (canvas img : Img) (ox oy : Nat) : Img :=
  { w := canvas.w, h := canvas.h,
    px := fun i j =>
      if ox ≤ i ∧ i < ox + img.w ∧ oy ≤ j ∧ j < oy + img.h then
        img.px (i - ox) (j - oy)
      else canvas.px i j }

/-- A `spriteSourceSize` record `{x, y, w, h}`. -/
structure Rect4 where
  x : Nat
  y : Nat
  w : Nat
  h : Nat
deriving DecidableEq, Repr

/-- A `sourceSize` record `{w, h}`. -/
structure Size2 where
  w : Nat
  h : Nat
deriving DecidableEq, Repr

/-- A Frame Descriptor: the `frame` box `{x, y, w, h}`, the `rotated`
flag, and the optional `spriteSourceSize` / `sourceSize` records
(`None` models an absent or falsy entry, for which the code substitutes
the defaults). -/
structure Frame where
  x : Nat
  y : Nat
  w : Nat
  h : Nat
  rotated : Bool
  sss : Option Rect4
  srcSize : Option Size2
deriving DecidableEq, Repr

/-- `sss = frame.get("spriteSourceSize") or {"x": 0, "y": 0, "w": fr["w"], "h": fr["h"]}`. -/
def sssOf (f : Frame) : Rect4 := f.sss.getD ⟨0, 0, f.w, f.h⟩

/-- `src_size = frame.get("sourceSize") or {"w": fr["w"], "h": fr["h"]}`. -/
def srcSizeOf (f : Frame) : Size2 := f.srcSize.getD ⟨f.w, f.h⟩

/-- `extract_sprite(sheet, frame)` from the source: crop the frame box
(width/height swapped when `rotated`), rotate back 90° counter-clockwise
when `rotated`, and paste onto a transparent `sourceSize` canvas at the
`spriteSourceSize` offset. -/
def extract_sprite (sheet : Img) (f : Frame) : Img :=
  let cropBox :=
    if f.rotated then crop sheet f.x f.y (f.x + f.h) (f.y + f.w)
    else crop sheet f.x f.y (f.x + f.w) (f.y + f.h)
  let cropped := if f.rotated then rotate90 cropBox else cropBox
  paste (newRGBA (srcSizeOf f).w (srcSizeOf f).h) cropped (sssOf f).x (sssOf f).y

/-- Concrete sheet for the C3 witness. -/
def sheetEx : Img := { w := 4, h := 3, px := fun i j => ⟨i, j, 0, 255⟩ }

/-- Concrete rotated frame for the C3 witness. -/
def frameEx : Frame :=
  { x := 1, y := 0, w := 2, h := 3, rotated := true,
    sss := some ⟨1, 1, 2, 3⟩, srcSize := some ⟨4, 5⟩ }

/-! ### Effective sheet width (`main`, lines 121–141) -/

/-- `max_w` in `main`: the running maximum of the extracted sprite
widths, `max_w = max(max_w, w)` starting from `0`. -/
def maxSpriteWidth (ws : List Nat) : Nat := ws.foldl max 0

/-- The effective sheet width `main` passes to the packer:
`if max_w + padding * 2 > max_width: max_width = max(max_w + padding * 2, 8192)`. -/
def effective_max_width (requested padding maxw : Nat) : Nat :=
  if maxw + padding * 2 > requested then max (maxw + padding * 2) 8192
  else requested

/-! ### HTML patcher (`update_html`), on `List Char` -/

/-- Python's substring test `pat in s`. -/
def hasSub (pat : List Char) : List Char → Bool
  | [] => pat.isEmpty
  | c :: t => pat.isPrefixOf (c :: t) || hasSub pat t

/-- Python's `s.split(pat, 1)` when `pat` occurs: `some (before, after)`
around the first occurrence (separator dropped); `none` when `pat` does
not occur (Python would return a single piece, and the caller's
two-element unpacking would raise).  Only called with non-empty `pat`. -/
def splitFirst (pat : List Char) : List Char → Option (List Char × List Char)
  | [] => if pat.isEmpty then some ([], []) else none
  | c :: t =>
    if pat.isPrefixOf (c :: t) then some ([], (c :: t).drop pat.length)
    else
      match splitFirst pat t with
      | none => none
      | some (b, a) => some (c :: b, a)

/-- Worker for `replaceAll`, structurally recursive on a fuel argument.
Each step consumes at least one character of `s` when `old` is
non-empty, so `fuel = s.length` never runs out. -/
def replaceAllGo (old new : List Char) : Nat → List Char → List Char
  | 0, s => s
  | _ + 1, [] => []
  | fuel + 1, c :: t =>
    if old.isPrefixOf (c :: t) then
      new ++ replaceAllGo old new fuel ((c :: t).drop old.length)
    else c :: replaceAllGo old new fuel t

/-- Python's `s.replace(old, new)`: replace every non-overlapping
occurrence, scanning left to right (the code only calls it with fixed
non-empty `old` fragments). -/
def replaceAll (old new s : List Char) : List Char :=
  replaceAllGo old new s.length s

/-- Marker `<!-- INLINE_SHEETS_START -->`. -/
def sheetsStartM : List Char := ("<!-- INLINE_SHEETS_START -->").toList

/-- Marker `<!-- INLINE_SHEETS_END -->`. -/
def sheetsEndM : List Char := ("<!-- INLINE_SHEETS_END -->").toList

/-- Marker `<!-- INLINE_ATLASES_START -->`. -/
def atlasStartM : List Char := ("<!-- INLINE_ATLASES_START -->").toList

/-- Marker `<!-- INLINE_ATLASES_END -->`. -/
def atlasEndM : List Char := ("<!-- INLINE_ATLASES_END -->").toList

/-- The `sheets_block` replacement text. -/
def sheetsBlock : List Char :=
  ("<!-- INLINE_SHEETS_START -->\n<!-- External sheet: assets/flat-sprites.webp -->\n<!-- INLINE_SHEETS_END -->\n").toList

/-- The `atlas_block` replacement text around the atlas JSON payload. -/
def atlasBlock (j : List Char) : List Char :=
  ("<!-- INLINE_ATLASES_START -->\n<script id=\"atlasFlat\" type=\"application/json\">\n").toList
    ++ j
    ++ ("\n</script>\n<!-- INLINE_ATLASES_END -->\n").toList

/-- First fixed source fragment searched by `html.replace`. -/
def frag1old : List Char :=
  ("const ATLAS_0 = getInlineJson(\"atlas0\");\nconst ATLAS_1 = getInlineJson(\"atlas1\");\n").toList

/-- Replacement for the first fragment. -/
def frag1new : List Char :=
  ("const ATLAS_0 = getInlineJson(\"atlasFlat\");\nconst ATLAS_1 = \x7b frames: \x7b\x7d \x7d;\n").toList

/-- Second fixed source fragment searched by `html.replace`. -/
def frag2old : List Char :=
  ("const SHEET_0_SRC = getInlineDataUrl(\"sheet0\");\nconst SHEET_1_SRC = getInlineDataUrl(\"sheet1\");\nconst SHEET_0_FALLBACK = ASSETS_URL + \"/sprites-0.webp\";\nconst SHEET_1_FALLBACK = ASSETS_URL + \"/sprites-1.webp\";\n\n").toList

/-- Replacement for the second fragment. -/
def frag2new : List Char :=
  ("const SHEET_0_SRC = ASSETS_URL + \"/flat-sprites.webp\";\nconst SHEET_1_SRC = ASSETS_URL + \"/flat-sprites.webp\";\nconst SHEET_0_FALLBACK = null;\nconst SHEET_1_FALLBACK = null;\n\n").toList

/-- One marker-delimited splice of `update_html`: when both markers are
present, replace from the first start marker through the first end
marker after it with `block`; otherwise leave the document unchanged.
`none` models the `ValueError` Python raises when the end marker occurs
only before the start marker (two-element unpacking of a one-element
split). -/
def spliceStep (startM endM block html : List Char) : Option (List Char) :=
  if hasSub startM html && hasSub endM html then
    match splitFirst startM html with
    | none => none
    | some (before, rest) =>
      match splitFirst endM rest with
      | none => none
      | some (_, after) => some (before ++ block ++ after)
  else some html

/-- `update_html(html_path, atlas_json_text)` from the source, as a pure
document transformer: splice the sheets block, splice the atlas block
(with the JSON payload), then apply the two fixed-fragment
replacements. -/
def update_html (html j : List Char) : Option (List Char) :=
  match spliceStep sheetsStartM sheetsEndM sheetsBlock html with
  | none => none
  | some h1 =>
    match spliceStep atlasStartM atlasEndM (atlasBlock j) h1 with
    | none => none
    | some h2 => some (replaceAll frag2old frag2new (replaceAll frag1old frag1new h2))

/-- Concrete document for C6: both marker pairs, nothing else. -/
def doc0ex : List Char := sheetsStartM ++ sheetsEndM ++ atlasStartM ++ atlasEndM

/-- Concrete atlas JSON payload for C6. -/
def jex : List Char := ("\x7b\x7d").toList

/-! ### Output atlas assembly (`main`, lines 114–155) -/

/-- Python dict assignment `d[k] = v`: when the key is already present
its value is updated in place (position kept); otherwise the pair is
appended. -/
def dictInsert (k : Nat) (v : Placed) (d : List (Nat × Placed)) :
    List (Nat × Placed) :=
  if d.any (fun p => p.1 = k) then
    d.map (fun p => if p.1 = k then (k, v) else p)
  else d ++ [(k, v)]

/-- `main` collects the frames of both atlases into one list, atlas 0
first, then atlas 1 (the two `for key, frame in ...` loops). -/
def mergedItems (items0 items1 : List Item) : List Item := items0 ++ items1

/-- The `out_frames` dict built by `main`: one entry per placement,
keyed by the sprite key (`out_frames[it["key"]] = {...}`; the stored
value stands for the constructed frame descriptor). -/
def out_frames (items : List Item) (mw pad : Nat) : List (Nat × Placed) :=
  (pack_sprites items mw pad).1.foldl (fun d it => dictInsert it.key it d) []

/-! ### Lemmas about the sort -/

theorem hDescLE_trans (a b c : Item) :
    hDescLE a b → hDescLE b c → hDescLE a c := by
  simp only [hDescLE, decide_eq_true_eq]
  omega

theorem hDescLE_total (a b : Item) : hDescLE a b || hDescLE b a := by
  simp only [hDescLE, Bool.or_eq_true, decide_eq_true_eq]
  omega

theorem sortByHeightDesc_perm (items : List Item) :
    List.Perm (sortByHeightDesc items) items :=
  List.mergeSort_perm items hDescLE

theorem sortByHeightDesc_sorted (items : List Item) :
    (sortByHeightDesc items).Pairwise (fun a b => b.h ≤ a.h) := by
  have h := List.sorted_mergeSort hDescLE_trans hDescLE_total items
  exact h.imp (by simp only [hDescLE, decide_eq_true_eq]; exact fun hh => hh)

/-- Stability: among the items of any fixed height, the sort keeps the
original relative order (their filtered subsequence is unchanged). -/
theorem sortByHeightDesc_stable (items : List Item) (c : Nat) :
    (sortByHeightDesc items).filter (fun it => it.h = c)
      = items.filter (fun it => it.h = c) := by
  set p : Item → Bool := fun it => it.h = c with hp
  have hpair : (items.filter p).Pairwise (fun a b => hDescLE a b) := by
    apply List.pairwise_of_forall_mem_list
    intro a ha b hb
    have ha' := (List.mem_filter.mp ha).2
    have hb' := (List.mem_filter.mp hb).2
    simp only [hp, decide_eq_true_eq] at ha' hb'
    simp only [hDescLE, decide_eq_true_eq, ha', hb', le_refl]
  have hsub : List.Sublist (items.filter p) (List.mergeSort items hDescLE) :=
    List.sublist_mergeSort hDescLE_trans hDescLE_total hpair
      (List.filter_sublist items : (items.filter p).Sublist items)
  have hsub2 : List.Sublist (items.filter p)
      ((List.mergeSort items hDescLE).filter p) := by
    have h2 := hsub.filter p
    simp only [List.filter_filter, Bool.and_self] at h2
    exact h2
  have hlen : ((List.mergeSort items hDescLE).filter p).length
      = (items.filter p).length :=
    ((List.mergeSort_perm items hDescLE).filter p).length_eq
  exact (hsub2.eq_of_length hlen.symm).symm

/-- Evaluating the stable sort on a two-element list. -/
theorem sortByHeightDesc_pair (a b : Item) :
    sortByHeightDesc [a, b] = if b.h ≤ a.h then [a, b] else [b, a] := by
  unfold sortByHeightDesc
  rw [List.mergeSort]
  simp [List.splitInTwo, List.merge, hDescLE]

/-! ### The packer loop body, in spec orientation -/

theorem packStep_eval (mw pad x y sh : Nat) (acc : List Placed) (it : Item) :
    packStep mw pad ⟨x, y, sh, acc⟩ it =
      if x + (it.w + 2 * pad) > mw ∧ x > pad then
        { x := pad + (it.w + 2 * pad), y := y + sh, shelfH := it.h + 2 * pad,
          placed := acc ++ [⟨it.key, it.w, it.h, pad + pad, (y + sh) + pad⟩] }
      else
        { x := x + (it.w + 2 * pad), y := y, shelfH := max sh (it.h + 2 * pad),
          placed := acc ++ [⟨it.key, it.w, it.h, x + pad, y + pad⟩] } := by
  have h2 : pad * 2 = 2 * pad := Nat.mul_comm pad 2
  by_cases hc : x + (it.w + 2 * pad) > mw ∧ x > pad
  · rw [if_pos hc]
    simp only [packStep, h2]
    simp [hc]
  · rw [if_neg hc]
    simp only [packStep, h2]
    simp [hc]

/-- The source fold and the spec recursion compute the same placements
(appended to the accumulator) and the same final `y + shelf_height`,
from any cursor state. -/
theorem packGo_bridge (mw pad : Nat) (l : List Item) :
    ∀ (x y sh : Nat) (acc : List Placed),
      ((l.foldl (packStep mw pad) ⟨x, y, sh, acc⟩).placed
          = acc ++ (packSpecGo mw pad l x y sh).1)
        ∧ ((l.foldl (packStep mw pad) ⟨x, y, sh, acc⟩).y
            + (l.foldl (packStep mw pad) ⟨x, y, sh, acc⟩).shelfH
          = (packSpecGo mw pad l x y sh).2) := by
  induction l with
  | nil =>
    intro x y sh acc
    simp [packSpecGo]
  | cons it rest ih =>
    intro x y sh acc
    rw [List.foldl_cons, packStep_eval]
    by_cases hc : x + (it.w + 2 * pad) > mw ∧ x > pad
    · rw [if_pos hc]
      have h := ih (pad + (it.w + 2 * pad)) (y + sh) (it.h + 2 * pad)
        (acc ++ [⟨it.key, it.w, it.h, pad + pad, (y + sh) + pad⟩])
      refine ⟨?_, ?_⟩
      · rw [h.1]
        simp only [packSpecGo]
        rw [if_pos hc]
        simp
      · rw [h.2]
        simp only [packSpecGo]
        rw [if_pos hc]
    · rw [if_neg hc]
      have h := ih (x + (it.w + 2 * pad)) y (max sh (it.h + 2 * pad))
        (acc ++ [⟨it.key, it.w, it.h, x + pad, y + pad⟩])
      refine ⟨?_, ?_⟩
      · rw [h.1]
        simp only [packSpecGo]
        rw [if_neg hc]
        simp
      · rw [h.2]
        simp only [packSpecGo]
        rw [if_neg hc]

/-! ### The packing invariant -/

theorem packStep_inv (mw pad : Nat) (s : PackState) (it : Item)
    (hw : it.w + 2 * pad ≤ mw) (hinv : PackInv mw pad s) :
    PackInv mw pad (packStep mw pad s it) := by
  obtain ⟨x, y, sh, acc⟩ := s
  obtain ⟨hx, hy, hco, hbot, hcur, hwid, hpw⟩ := hinv
  simp only [PackInv]
  dsimp only at hx hy hco hbot hcur hwid hpw
  rw [packStep_eval]
  by_cases hc : x + (it.w + 2 * pad) > mw ∧ x > pad
  · rw [if_pos hc]
    dsimp only
    refine ⟨by omega, by omega, ?_, ?_, ?_, ?_, ?_⟩
    · intro p hp
      rcases List.mem_append.mp hp with h | h
      · exact hco p h
      · simp only [List.mem_singleton] at h
        subst h
        try dsimp only
        omega
    · intro p hp
      rcases List.mem_append.mp hp with h | h
      · have hb := hbot p h
        omega
      · simp only [List.mem_singleton] at h
        subst h
        try dsimp only
        omega
    · intro p hp
      rcases List.mem_append.mp hp with h | h
      · have hb := hbot p h
        left
        omega
      · simp only [List.mem_singleton] at h
        subst h
        right
        try dsimp only
        omega
    · intro p hp
      rcases List.mem_append.mp hp with h | h
      · exact hwid p h
      · simp only [List.mem_singleton] at h
        subst h
        try dsimp only
        omega
    · rw [List.pairwise_append]
      refine ⟨hpw, by simp, ?_⟩
      intro p hp q hq
      simp only [List.mem_singleton] at hq
      subst hq
      have hb := hbot p hp
      unfold padDisjoint
      try dsimp only
      omega
  · rw [if_neg hc]
    dsimp only
    refine ⟨by omega, by omega, ?_, ?_, ?_, ?_, ?_⟩
    · intro p hp
      rcases List.mem_append.mp hp with h | h
      · exact hco p h
      · simp only [List.mem_singleton] at h
        subst h
        try dsimp only
        omega
    · intro p hp
      rcases List.mem_append.mp hp with h | h
      · have hb := hbot p h
        omega
      · simp only [List.mem_singleton] at h
        subst h
        try dsimp only
        omega
    · intro p hp
      rcases List.mem_append.mp hp with h | h
      · rcases hcur p h with h1 | h1
        · left
          omega
        · right
          try dsimp only
          omega
      · simp only [List.mem_singleton] at h
        subst h
        right
        try dsimp only
        omega
    · intro p hp
      rcases List.mem_append.mp hp with h | h
      · exact hwid p h
      · simp only [List.mem_singleton] at h
        subst h
        try dsimp only
        omega
    · rw [List.pairwise_append]
      refine ⟨hpw, by simp, ?_⟩
      intro p hp q hq
      simp only [List.mem_singleton] at hq
      subst hq
      rcases hcur p hp with h1 | h1
      · unfold padDisjoint
        try dsimp only
        omega
      · unfold padDisjoint
        try dsimp only
        omega

theorem packFold_inv (mw pad : Nat) (l : List Item)
    (hw : ∀ it ∈ l, it.w + 2 * pad ≤ mw) :
    ∀ s : PackState, PackInv mw pad s →
      PackInv mw pad (l.foldl (packStep mw pad) s) := by
  induction l with
  | nil =>
    intro s h
    simpa using h
  | cons it rest ih =>
    intro s h
    rw [List.foldl_cons]
    exact ih (fun a ha => hw a (List.mem_cons_of_mem _ ha)) _
      (packStep_inv mw pad s it (hw it (List.mem_cons_self _ _)) h)

theorem packInit_inv (mw pad : Nat) :
    PackInv mw pad ⟨pad, pad, 0, []⟩ := by
  simp [PackInv]

/-! ### HTML patcher lemmas -/

theorem replaceAllGo_id (old new : List Char) :
    ∀ (fuel : Nat) (s : List Char), hasSub old s = false →
      replaceAllGo old new fuel s = s := by
  intro fuel
  induction fuel with
  | zero =>
    intro s h
    rfl
  | succ n ih =>
    intro s h
    cases s with
    | nil => rfl
    | cons c t =>
      rw [hasSub] at h
      have hp : old.isPrefixOf (c :: t) = false := by
        cases hq : old.isPrefixOf (c :: t) <;> simp [hq] at h ⊢
      have ht : hasSub old t = false := by
        cases hq : hasSub old t <;> simp [hq, hp] at h ⊢
      simp only [replaceAllGo, hp, Bool.false_eq_true, if_false]
      rw [ih t ht]

/-- A fragment replacement on a document not containing the fragment is
the identity. -/
theorem replaceAll_id (old new s : List Char) (h : hasSub old s = false) :
    replaceAll old new s = s :=
  replaceAllGo_id old new s.length s h

/-- A marker splice on a document missing either marker is skipped. -/
theorem spliceStep_skip (sm em block html : List Char)
    (h : ¬(hasSub sm html = true ∧ hasSub em html = true)) :
    spliceStep sm em block html = some html := by
  have hb : ¬((hasSub sm html && hasSub em html) = true) := by
    simp only [Bool.and_eq_true]
    exact h
  unfold spliceStep
  rw [if_neg hb]

/-! ### Keys through packing and dict building -/

theorem packFold_keys (mw pad : Nat) (l : List Item) :
    ∀ s : PackState,
      ((l.foldl (packStep mw pad) s).placed).map Placed.key
        = s.placed.map Placed.key ++ l.map Item.key := by
  induction l with
  | nil =>
    intro s
    simp
  | cons it rest ih =>
    intro s
    rw [List.foldl_cons, ih]
    obtain ⟨x, y, sh, acc⟩ := s
    rw [packStep_eval]
    split_ifs <;> simp

theorem pack_keys (items : List Item) (mw pad : Nat) :
    (pack_sprites items mw pad).1.map Placed.key
      = (sortByHeightDesc items).map Item.key := by
  simp only [pack_sprites]
  rw [packFold_keys]
  simp

theorem dictInsert_map_fst_update (k : Nat) (v : Placed)
    (d : List (Nat × Placed)) :
    (d.map (fun p => if p.1 = k then (k, v) else p)).map Prod.fst
      = d.map Prod.fst := by
  rw [List.map_map]
  apply List.map_congr_left
  intro p hp
  by_cases h : p.1 = k
  · simp [h]
  · simp [h]

theorem dictInsert_keys_mem (k : Nat) (v : Placed) (d : List (Nat × Placed))
    (a : Nat) :
    a ∈ (dictInsert k v d).map Prod.fst ↔ a = k ∨ a ∈ d.map Prod.fst := by
  unfold dictInsert
  by_cases hk : d.any (fun p => p.1 = k)
  · rw [if_pos hk, dictInsert_map_fst_update]
    have hk' : k ∈ d.map Prod.fst := by
      simp only [List.any_eq_true, decide_eq_true_eq] at hk
      obtain ⟨p, hp, he⟩ := hk
      exact List.mem_map.mpr ⟨p, hp, he⟩
    constructor
    · intro h
      exact Or.inr h
    · rintro (rfl | h)
      · exact hk'
      · exact h
  · rw [if_neg hk]
    simp [List.map_append, or_comm]

theorem dictInsert_keys_nodup (k : Nat) (v : Placed) (d : List (Nat × Placed))
    (h : (d.map Prod.fst).Nodup) :
    ((dictInsert k v d).map Prod.fst).Nodup := by
  unfold dictInsert
  by_cases hk : d.any (fun p => p.1 = k)
  · rw [if_pos hk, dictInsert_map_fst_update]
    exact h
  · rw [if_neg hk, List.map_append]
    simp only [List.any_eq_true, decide_eq_true_eq, not_exists, not_and] at hk
    rw [List.nodup_append]
    refine ⟨h, by simp, ?_⟩
    intro a ha hb
    simp only [List.map_cons, List.map_nil, List.mem_singleton] at hb
    subst hb
    obtain ⟨p, hp, he⟩ := List.mem_map.mp ha
    exact absurd he (by simpa using hk p hp)

theorem foldl_dictInsert_keys (l : List Placed) :
    ∀ d : List (Nat × Placed), (d.map Prod.fst).Nodup →
      ((l.foldl (fun d it => dictInsert it.key it d) d).map Prod.fst).Nodup
        ∧ ∀ a, a ∈ (l.foldl (fun d it => dictInsert it.key it d) d).map Prod.fst
            ↔ (a ∈ d.map Prod.fst ∨ a ∈ l.map Placed.key) := by
  induction l with
  | nil =>
    intro d hd
    simpa using hd
  | cons it rest ih =>
    intro d hd
    rw [List.foldl_cons]
    have h1 := ih (dictInsert it.key it d) (dictInsert_keys_nodup _ _ _ hd)
    refine ⟨h1.1, ?_⟩
    intro a
    rw [h1.2 a, dictInsert_keys_mem]
    simp only [List.map_cons, List.mem_cons]
    tauto

/-! ### Claims -/

/-- C1: the shelf packer follows the stated greedy algorithm exactly:
its output coincides with the spec's scan (sort by height descending,
cursor from `(padding, padding)`, new shelf exactly when
`x + w' > max_width` and `x > padding`, placement at
`(x + padding, y + padding)`, `x += w'`,
`shelf_height = max(shelf_height, h')`, final size
`(max_width, y + shelf_height)`); moreover the sort is by height
descending, a permutation of the input, and stable (equal heights keep
insertion order). -/
theorem pack_sprites_follows_spec (items : List Item) (mw pad : Nat) :
    pack_sprites items mw pad = packSpec items mw pad
      ∧ (sortByHeightDesc items).Pairwise (fun a b => b.h ≤ a.h)
      ∧ List.Perm (sortByHeightDesc items) items
      ∧ ∀ c, (sortByHeightDesc items).filter (fun it => it.h = c)
          = items.filter (fun it => it.h = c) := by
  refine ⟨?_, sortByHeightDesc_sorted items, sortByHeightDesc_perm items,
    fun c => sortByHeightDesc_stable items c⟩
  have h := packGo_bridge mw pad (sortByHeightDesc items) pad pad 0 []
  have h1 := h.1
  have h2 := h.2
  simp only [List.nil_append] at h1
  simp only [pack_sprites, packSpec]
  rw [h1, h2]

/-- C2: when `max_width` is at least every rectangle's width plus
`2*padding`, the packer's placements have pairwise disjoint padded
bounding boxes, and every placed rectangle lies inside
`[0, max_width) × [0, output_height)` (lower bounds are automatic over
`Nat`). -/
theorem pack_sprites_safe (items : List Item) (mw pad : Nat)
    (hw : ∀ it ∈ items, it.w + 2 * pad ≤ mw) :
    (pack_sprites items mw pad).1.Pairwise (padDisjoint pad)
      ∧ (pack_sprites items mw pad).1.Pairwise (fun p q =>
          ∀ u v : Nat,
            ¬((p.x - pad ≤ u ∧ u < p.x + p.w + pad
                ∧ p.y - pad ≤ v ∧ v < p.y + p.h + pad)
              ∧ (q.x - pad ≤ u ∧ u < q.x + q.w + pad
                ∧ q.y - pad ≤ v ∧ v < q.y + q.h + pad)))
      ∧ ∀ p ∈ (pack_sprites items mw pad).1,
          p.x + p.w ≤ mw ∧ p.y + p.h ≤ (pack_sprites items mw pad).2.2 := by
  have hw' : ∀ it ∈ sortByHeightDesc items, it.w + 2 * pad ≤ mw := by
    intro it hit
    exact hw it ((sortByHeightDesc_perm items).mem_iff.mp hit)
  have hinv := packFold_inv mw pad (sortByHeightDesc items) hw'
    ⟨pad, pad, 0, []⟩ (packInit_inv mw pad)
  obtain ⟨_, _, _, hbot, _, hwid, hpw⟩ := hinv
  simp only [pack_sprites]
  refine ⟨hpw, ?_, ?_⟩
  · refine hpw.imp ?_
    intro p q h
    intro u v
    unfold padDisjoint at h
    omega
  · intro p hp
    refine ⟨hwid p hp, ?_⟩
    have hb := hbot p hp
    omega

/-- Witness for C2 at a concrete input. -/
theorem pack_sprites_safe_witness :
    (pack_sprites [⟨0, 10, 10⟩, ⟨1, 20, 5⟩] 40 1).1.Pairwise (padDisjoint 1)
      ∧ (pack_sprites [⟨0, 10, 10⟩, ⟨1, 20, 5⟩] 40 1).1.Pairwise (fun p q =>
          ∀ u v : Nat,
            ¬((p.x - 1 ≤ u ∧ u < p.x + p.w + 1
                ∧ p.y - 1 ≤ v ∧ v < p.y + p.h + 1)
              ∧ (q.x - 1 ≤ u ∧ u < q.x + q.w + 1
                ∧ q.y - 1 ≤ v ∧ v < q.y + q.h + 1)))
      ∧ ∀ p ∈ (pack_sprites [⟨0, 10, 10⟩, ⟨1, 20, 5⟩] 40 1).1,
          p.x + p.w ≤ 40
            ∧ p.y + p.h ≤ (pack_sprites [⟨0, 10, 10⟩, ⟨1, 20, 5⟩] 40 1).2.2 :=
  pack_sprites_safe [⟨0, 10, 10⟩, ⟨1, 20, 5⟩] 40 1 (by decide)

set_option maxRecDepth 10000 in
/-- C6 counterexample: for a document holding both marker pairs, running
the patch a second time with the same atlas JSON does not return the
first run's output — re-splicing keeps the newline the previous block
left after each END marker, so the document grows. -/
theorem update_html_twice_not_identical :
    (update_html doc0ex jex).bind (fun d => update_html d jex)
      ≠ update_html doc0ex jex := by
  decide

set_option maxRecDepth 10000 in
/-- C6 as amended: the second run returns the first run's output with
one extra newline inserted after the sheets block and one after the
atlas block (so re-running with the same atlas JSON is not
byte-identical; each further run adds another newline per block). -/
theorem update_html_second_run_adds_newlines :
    update_html doc0ex jex = some (sheetsBlock ++ atlasBlock jex)
      ∧ update_html (sheetsBlock ++ atlasBlock jex) jex
          = some (sheetsBlock ++ ("\n").toList
              ++ atlasBlock jex ++ ("\n").toList)
      ∧ sheetsBlock ++ ("\n").toList ++ atlasBlock jex ++ ("\n").toList
          ≠ sheetsBlock ++ atlasBlock jex := by
  refine ⟨by decide, by decide, by decide⟩

/-- C7: whichever marker pair or fixed fragment is absent, that specific
replacement is skipped (the document passes through it unchanged, never
an error), and the remaining replacements are still applied: without the
sheets markers the patch is exactly the atlas splice followed by the two
fragment replacements, and without both marker pairs it is exactly the
two fragment replacements. -/
theorem update_html_skips_absent (html j : List Char) :
    (¬(hasSub sheetsStartM html = true ∧ hasSub sheetsEndM html = true) →
        spliceStep sheetsStartM sheetsEndM sheetsBlock html = some html)
      ∧ (¬(hasSub atlasStartM html = true ∧ hasSub atlasEndM html = true) →
          spliceStep atlasStartM atlasEndM (atlasBlock j) html = some html)
      ∧ (hasSub frag1old html = false →
          replaceAll frag1old frag1new html = html)
      ∧ (hasSub frag2old html = false →
          replaceAll frag2old frag2new html = html)
      ∧ (¬(hasSub sheetsStartM html = true ∧ hasSub sheetsEndM html = true) →
          update_html html j
            = (spliceStep atlasStartM atlasEndM (atlasBlock j) html).map
                (fun h2 => replaceAll frag2old frag2new
                  (replaceAll frag1old frag1new h2)))
      ∧ (¬(hasSub sheetsStartM html = true ∧ hasSub sheetsEndM html = true) →
          ¬(hasSub atlasStartM html = true ∧ hasSub atlasEndM html = true) →
          update_html html j
            = some (replaceAll frag2old frag2new
                (replaceAll frag1old frag1new html))) := by
  refine ⟨spliceStep_skip _ _ _ _, spliceStep_skip _ _ _ _,
    replaceAll_id _ _ _, replaceAll_id _ _ _, ?_, ?_⟩
  · intro hs
    unfold update_html
    rw [spliceStep_skip _ _ _ _ hs]
    cases hA : spliceStep atlasStartM atlasEndM (atlasBlock j) html <;>
      simp [hA]
  · intro hs hA
    unfold update_html
    rw [spliceStep_skip _ _ _ _ hs]
    dsimp only
    rw [spliceStep_skip _ _ _ _ hA]

/-- Witness for C7: on a document with no markers and no fragments, each
splice is the identity and the patch reduces to the two (also identity)
fragment replacements. -/
theorem update_html_skips_absent_witness :
    spliceStep sheetsStartM sheetsEndM sheetsBlock (("hello").toList)
        = some (("hello").toList)
      ∧ update_html (("hello").toList) ([] : List Char)
          = some (replaceAll frag2old frag2new
              (replaceAll frag1old frag1new (("hello").toList))) :=
  ⟨(update_html_skips_absent (("hello").toList) []).1 (by decide),
   (update_html_skips_absent (("hello").toList) []).2.2.2.2.2
     (by decide) (by decide)⟩

/-- C8: every sprite key present in either input atlas appears exactly
once in the output atlas's frames mapping — the key list of `out_frames`
has no duplicates, and a key is in it exactly when it is a key of atlas 0
or of atlas 1. -/
theorem out_frames_keys (items0 items1 : List Item) (mw pad : Nat) :
    ((out_frames (mergedItems items0 items1) mw pad).map Prod.fst).Nodup
      ∧ ∀ k, k ∈ (out_frames (mergedItems items0 items1) mw pad).map Prod.fst
          ↔ (k ∈ items0.map Item.key ∨ k ∈ items1.map Item.key) := by
  have h := foldl_dictInsert_keys
    (pack_sprites (mergedItems items0 items1) mw pad).1 [] (by simp)
  unfold out_frames
  refine ⟨h.1, ?_⟩
  intro k
  rw [h.2 k]
  simp only [List.map_nil, List.not_mem_nil, false_or]
  have hk := pack_keys (mergedItems items0 items1) mw pad
  rw [hk]
  have hperm := (sortByHeightDesc_perm (mergedItems items0 items1)).map Item.key
  rw [hperm.mem_iff]
  unfold mergedItems
  simp

/-- C3: for a frame whose crop region lies within the sheet, the
extractor returns an image of size `sourceSize` (defaulting to the raw
`w × h`); inside the pasted region (offset `spriteSourceSize.{x,y}`,
defaulting to `(0, 0)`, extent `w × h`) each pixel is the sprite pixel —
read straight from the crop box when not rotated, and through one
quarter-turn counter-clockwise of the width/height-swapped crop box
`(x, y, x + h, y + w)` when rotated — and every other pixel is fully
transparent. -/
theorem extract_sprite_spec (sheet : Img) (f : Frame)
    (hx : f.x + (if f.rotated then f.h else f.w) ≤ sheet.w)
    (hy : f.y + (if f.rotated then f.w else f.h) ≤ sheet.h) :
    (extract_sprite sheet f).w = (srcSizeOf f).w
      ∧ (extract_sprite sheet f).h = (srcSizeOf f).h
      ∧ ∀ i j, i < (extract_sprite sheet f).w → j < (extract_sprite sheet f).h →
          (extract_sprite sheet f).px i j =
            if (sssOf f).x ≤ i ∧ i < (sssOf f).x + f.w
                ∧ (sssOf f).y ≤ j ∧ j < (sssOf f).y + f.h then
              (if f.rotated then
                sheet.px (f.x + (f.h - 1 - (j - (sssOf f).y)))
                  (f.y + (i - (sssOf f).x))
              else
                sheet.px (f.x + (i - (sssOf f).x)) (f.y + (j - (sssOf f).y)))
            else transparent := by
  cases hr : f.rotated
  · simp [extract_sprite, crop, rotate90, paste, newRGBA, hr,
      Nat.add_sub_cancel_left]
  · simp [extract_sprite, crop, rotate90, paste, newRGBA, hr,
      Nat.add_sub_cancel_left]

/-- Witness for C3 on a concrete 4×3 sheet and a rotated frame. -/
theorem extract_sprite_spec_witness :
    (extract_sprite sheetEx frameEx).w = (srcSizeOf frameEx).w
      ∧ (extract_sprite sheetEx frameEx).h = (srcSizeOf frameEx).h
      ∧ ∀ i j, i < (extract_sprite sheetEx frameEx).w →
          j < (extract_sprite sheetEx frameEx).h →
          (extract_sprite sheetEx frameEx).px i j =
            if (sssOf frameEx).x ≤ i ∧ i < (sssOf frameEx).x + frameEx.w
                ∧ (sssOf frameEx).y ≤ j ∧ j < (sssOf frameEx).y + frameEx.h then
              (if frameEx.rotated then
                sheetEx.px (frameEx.x + (frameEx.h - 1 - (j - (sssOf frameEx).y)))
                  (frameEx.y + (i - (sssOf frameEx).x))
              else
                sheetEx.px (frameEx.x + (i - (sssOf frameEx).x))
                  (frameEx.y + (j - (sssOf frameEx).y)))
            else transparent :=
  extract_sprite_spec sheetEx frameEx (by decide) (by decide)

/-- Helper: every element of the list is bounded by the running
maximum, and the seed only grows. -/
theorem foldl_max_bounds (ws : List Nat) :
    ∀ a : Nat, a ≤ ws.foldl max a ∧ ∀ w ∈ ws, w ≤ ws.foldl max a := by
  induction ws with
  | nil => simp
  | cons b t ih =>
    intro a
    rw [List.foldl_cons]
    refine ⟨le_trans (le_max_left a b) (ih (max a b)).1, ?_⟩
    intro w hw
    rcases List.mem_cons.mp hw with h | h
    · subst h
      exact le_trans (le_max_right a w) (ih (max a w)).1
    · exact (ih (max a b)).2 w h

/-- C5: the width actually given to the packer.  When widening is needed
(`max_w + 2*padding` exceeds the request) it is
`max(max_w + padding*2, 8192)`, hence at least the largest sprite width
plus padding and at least the `8192` floor; when no widening is needed
the requested width is used unchanged (no floor applied).  `max_w`
bounds every sprite width. -/
theorem effective_max_width_spec (ws : List Nat) (requested padding : Nat) :
    (maxSpriteWidth ws + padding * 2 > requested →
        effective_max_width requested padding (maxSpriteWidth ws)
            = max (maxSpriteWidth ws + padding * 2) 8192
          ∧ maxSpriteWidth ws + padding
              ≤ effective_max_width requested padding (maxSpriteWidth ws)
          ∧ 8192 ≤ effective_max_width requested padding (maxSpriteWidth ws))
      ∧ (maxSpriteWidth ws + padding * 2 ≤ requested →
          effective_max_width requested padding (maxSpriteWidth ws) = requested)
      ∧ ∀ w ∈ ws, w ≤ maxSpriteWidth ws := by
  refine ⟨?_, ?_, (foldl_max_bounds ws 0).2⟩
  · intro h
    rw [effective_max_width, if_pos h]
    refine ⟨rfl, ?_, le_max_right _ _⟩
    have := le_max_left (maxSpriteWidth ws + padding * 2) 8192
    omega
  · intro h
    rw [effective_max_width, if_neg (by omega)]

/-- Witness for C5: widening (with the floor) at one concrete input,
and the unchanged request at another. -/
theorem effective_max_width_spec_witness :
    8192 ≤ effective_max_width 10 2 (maxSpriteWidth [100])
      ∧ effective_max_width 5000 2 (maxSpriteWidth [100]) = 5000 :=
  ⟨((effective_max_width_spec [100] 10 2).1 (by decide)).2.2,
   (effective_max_width_spec [100] 5000 2).2.1 (by decide)⟩

/-- C9: the shelf packer is deterministic — identical inputs yield
identical placements, sheet width and sheet height. -/
theorem pack_sprites_deterministic (i₁ i₂ : List Item) (mw₁ mw₂ p₁ p₂ : Nat)
    (hi : i₁ = i₂) (hmw : mw₁ = mw₂) (hp : p₁ = p₂) :
    pack_sprites i₁ mw₁ p₁ = pack_sprites i₂ mw₂ p₂ := by
  subst hi
  subst hmw
  subst hp
  rfl

/-- Witness for C9 at a concrete input. -/
theorem pack_sprites_deterministic_witness :
    pack_sprites [⟨0, 3, 4⟩] 16 2 = pack_sprites [⟨0, 3, 4⟩] 16 2 :=
  pack_sprites_deterministic [⟨0, 3, 4⟩] [⟨0, 3, 4⟩] 16 16 2 2 rfl rfl rfl

/-- C4 counterexample: with sprites 10×10 and 20×5, `max_width = 30`,
`padding = 1`, the two placements do NOT share a y coordinate (they are
not on one shelf): placing the second would need `13 + 22 = 35 > 30`,
so it wraps. -/
theorem pack_example_not_one_shelf :
    ¬ (∀ p ∈ (pack_sprites [⟨0, 10, 10⟩, ⟨1, 20, 5⟩] 30 1).1,
        ∀ q ∈ (pack_sprites [⟨0, 10, 10⟩, ⟨1, 20, 5⟩] 30 1).1, p.y = q.y) := by
  have hs : sortByHeightDesc [⟨0, 10, 10⟩, ⟨1, 20, 5⟩]
      = [⟨0, 10, 10⟩, ⟨1, 20, 5⟩] := by
    rw [sortByHeightDesc_pair]
    norm_num
  have hout : pack_sprites [⟨0, 10, 10⟩, ⟨1, 20, 5⟩] 30 1
      = ([⟨0, 10, 10, 2, 2⟩, ⟨1, 20, 5, 2, 14⟩], 30, 20) := by
    simp only [pack_sprites]
    rw [hs]
    rfl
  intro hall
  rw [hout] at hall
  have h12 := hall ⟨0, 10, 10, 2, 2⟩ (by simp) ⟨1, 20, 5, 2, 14⟩ (by simp)
  simp at h12

/-- C4 as amended: on sprites 10×10 and 20×5 with `max_width = 30`,
`padding = 1`, the packer places the 10×10 sprite at `(2, 2)` and wraps
the 20×5 sprite to a new shelf at `(2, 14)`; the sheet is 30 × 20. -/
theorem pack_example_wraps :
    pack_sprites [⟨0, 10, 10⟩, ⟨1, 20, 5⟩] 30 1
      = ([⟨0, 10, 10, 2, 2⟩, ⟨1, 20, 5, 2, 14⟩], 30, 20) := by
  have hs : sortByHeightDesc [⟨0, 10, 10⟩, ⟨1, 20, 5⟩]
      = [⟨0, 10, 10⟩, ⟨1, 20, 5⟩] := by
    rw [sortByHeightDesc_pair]
    norm_num
  simp only [pack_sprites]
  rw [hs]
  rfl

/-- C10: on the empty rectangle list the packer returns no placements,
width `max_width`, and height `padding` (the initial `y` plus the zero
shelf height), not zero. -/
theorem pack_sprites_empty (mw pad : Nat) :
    pack_sprites [] mw pad = ([], mw, pad) := by
  simp [pack_sprites, sortByHeightDesc]

end FlatAtlas
